import Mathlib

/-!
Shallow embedding of the edgevpn coordination core:
the liveness monitor and scrub scheduler (pkg/services/alive.go) and
the service registry and stream tunnel (pkg/edgevpn/services.go).

Time instants are modelled as natural numbers (minutes since the Go zero
time); a failed RFC3339 parse yields the Go zero time, modelled as 0.
Ledger buckets are association lists keyed by strings; `ledger.Add` is a
merge-write that replaces an existing key's value, `ledger.GetKey` is a
point lookup, matching the ledger facade contract the core consumes.
-/

namespace EdgeVPN

/-- `ledger.GetKey(bucket, key)`: point lookup against the local snapshot,
returning the value and whether it was found (here as an `Option`). -/
def getKey {α : Type} : List (String × α) → String → Option α
  | [], _ => none
  | (k, v) :: rest, key => if k = key then some v else getKey rest key

/-- `ledger.Add(bucket, {key: value})`: merge-write; a write with an existing
key replaces its value (last-writer-wins at the application layer). -/
def addKey {α : Type} (m : List (String × α)) (k : String) (v : α) :
    List (String × α) :=
  (k, v) :: m.filter (fun p => p.1 ≠ k)

/-- A value stored in the `healthcheck` bucket as seen by `AvailableNodes`:
either it decodes (`Unmarshal`) to a string that parses as an RFC3339
timestamp `t`, or decoding / parsing fails (`malformed` covers both a value
that does not decode to a string and a string that does not parse). -/
inductive HBValue where
  | timeVal : Nat → HBValue
  | malformed : HBValue
deriving DecidableEq, Repr

/-- `t.Unmarshal(&s); parsed, _ := time.Parse(time.RFC3339, s)` with the
error discarded: a failed parse leaves the Go zero time, modelled as 0. -/
def parseHB : HBValue → Nat
  | HBValue.timeVal t => t
  | HBValue.malformed => 0

/-- The fixed liveness TTL of `AvailableNodes`: 15 minutes. -/
def livenessTTL : Nat := 15

/-- `AvailableNodes(b)`: iterate the `healthcheck` bucket of the snapshot and
keep key `u` iff `parsed.Add(15 * time.Minute).After(time.Now())`, i.e.
`now < parsed + 15`. -/
def AvailableNodes (now : Nat) : List (String × HBValue) → List String
  | [] => []
  | e :: rest =>
    if now < parseHB e.2 + livenessTTL then e.1 :: AvailableNodes now rest
    else AvailableNodes now rest

/-- Modelled from the spec: `utils.Leader` is called by `Alive` but its source
is not under src/. The spec requires a pure, deterministic,
input-order-independent choice of exactly one peer from a non-empty list;
modelled as the lexicographically least element. -/
def Leader : List String → String
  | [] => ""
  | h :: t => t.foldl (fun a b => if a ≤ b then a else b) h

/-- A ledger effect that one `Alive` tick can issue: the heartbeat
merge-write into `healthcheck`, or `DeleteBucket` of `healthcheck`. -/
inductive LedgerOp where
  | addHB : String → Nat → LedgerOp
  | deleteBucket : LedgerOp
deriving DecidableEq, Repr

/-- One tick of the `Alive` announce closure. `t` is the scrub timer
(`lastScrubCheck`), `storage` the `healthcheck` bucket of the snapshot read
by `AvailableNodes`. The tick always writes the heartbeat; then, if the
live set is empty it returns; otherwise, when `!t.Add(scrubTime).After(now)`
(i.e. `t + scrubTime ≤ now`) it resets `t := now` and deletes the bucket
iff this node is the elected leader. Returns the new timer value and the
ledger operations issued. -/
def aliveTick (self : String) (scrubTime t now : Nat)
    (storage : List (String × HBValue)) : Nat × List LedgerOp :=
  if (AvailableNodes now storage).isEmpty then
    (t, [LedgerOp.addHB self now])
  else if t + scrubTime ≤ now then
    (now,
      if Leader (AvailableNodes now storage) = self then
        [LedgerOp.addHB self now, LedgerOp.deleteBucket]
      else [LedgerOp.addHB self now])
  else (t, [LedgerOp.addHB self now])

/-- `types.Service`: the record written into the `services` bucket. -/
structure Service where
  PeerID : String
  Name : String
deriving DecidableEq, Repr

/-- `types.User`: the record written into the `users` bucket. -/
structure User where
  PeerID : String
  Timestamp : String
deriving DecidableEq, Repr

/-- One tick of the `ExposeService` announce closure: read the `services`
entry for `serviceID`; if absent or its `PeerID` differs from this node,
merge-write `{serviceID: Service{PeerID: self, Name: serviceID}}`.
Returns whether a write was performed and the resulting bucket. -/
def publishTick (self serviceID : String) (b : List (String × Service)) :
    Bool × List (String × Service) :=
  match getKey b serviceID with
  | none => (true, addKey b serviceID ⟨self, serviceID⟩)
  | some service =>
    if service.PeerID ≠ self then (true, addKey b serviceID ⟨self, serviceID⟩)
    else (false, b)

/-- One tick of the `ConnectToService` announce closure: read the `users`
entry for this node; only if absent, merge-write
`{self: User{PeerID: self, Timestamp: now}}`. Returns whether a write was
performed and the resulting bucket. -/
def grantTick (self nowStr : String) (b : List (String × User)) :
    Bool × List (String × User) :=
  match getKey b self with
  | none => (true, addKey b self ⟨self, nowStr⟩)
  | some _ => (false, b)

/-- Observable outcome of the Expose-side inbound stream handler. -/
structure HandlerResult where
  dialAttempted : Bool
  streamReset : Bool
  proxied : Bool
deriving DecidableEq, Repr

/-- The `ExposeService` stream handler body: look up the remote peer in the
`users` bucket; if not found, reset the stream and return before any dial;
otherwise dial the local destination (`dialOk` says whether `net.Dial`
succeeds); on dial failure reset the stream; otherwise proxy. -/
def exposeStreamHandler (users : List (String × User)) (remotePeer : String)
    (dialOk : Bool) : HandlerResult :=
  match getKey users remotePeer with
  | none => ⟨false, true, false⟩
  | some _ =>
    if dialOk then ⟨true, false, true⟩
    else ⟨true, true, false⟩

/-- Observable outcome of the Connect-side per-connection handler:
whether the local connection was closed before proxying, and whether the
full-duplex proxy ran. -/
structure ConnResult where
  earlyClosed : Bool
  proxied : Bool
deriving DecidableEq, Repr

/-- The `ConnectToService` per-connection body: resolve `serviceID` in the
`services` bucket; if not found close the connection and return; decode the
recorded `PeerID` (`decodeOk` models `peer.Decode` succeeding); on failure
close and return; open the outbound stream (`streamOk` models
`host.NewStream` succeeding); on failure close and return; else proxy. -/
def connectHandler (services : List (String × Service)) (serviceID : String)
    (decodeOk : String → Bool) (streamOk : Bool) : ConnResult :=
  match getKey services serviceID with
  | none => ⟨true, false⟩
  | some service =>
    if decodeOk service.PeerID then
      if streamOk then ⟨false, true⟩
      else ⟨true, false⟩
    else ⟨true, false⟩

/-- Modelled from the spec: the fixed protocol tag `ServiceProtocol` is
defined outside src/; only its role as the single shared key of the
`StreamHandlers` map matters here, so it is modelled as a fixed string. -/
def ServiceProtocol : String := "/x/edgevpn/service/0.1"

/-- The inbound-stream handler a call to `ExposeService` installs, identified
by the `serviceID` and `dstaddress` the closure captures. -/
structure InstalledHandler where
  serviceID : String
  dstaddress : String
deriving DecidableEq, Repr

/-- Step 2 of `ExposeService`: assign the handler for `(serviceID,
dstaddress)` into the `StreamHandlers` map under the key `ServiceProtocol`
(a Go map assignment: replaces any previous handler under that key). -/
def exposeInstallHandler (handlers : List (String × InstalledHandler))
    (serviceID dstaddress : String) : List (String × InstalledHandler) :=
  addKey handlers ServiceProtocol ⟨serviceID, dstaddress⟩

/-- State of the full-duplex copy protocol shared by `ExposeService` and
`ConnectToService`: whether each of the two `copyStream` tasks has sent its
single completion signal on `closer`, how many signals are buffered in the
channel, how many the orchestrating task has received, and whether it has
closed both endpoints. -/
structure ProxyState where
  sent1 : Bool
  sent2 : Bool
  buffered : Nat
  received : Nat
  closed : Bool
deriving DecidableEq, Repr

/-- `closer := make(chan struct\x7b\x7d, 2)`: the completion channel holds
up to two signals. -/
def closerCapacity : Nat := 2

/-- The state right after `closer` is created and both copy tasks start. -/
def initProxy : ProxyState := ⟨false, false, 0, 0, false⟩

/-- Interleaving semantics of the proxy teardown: each `copyStream` task
sends exactly one signal when its copy ends (enabled only while the channel
has room, which is when a send would not block); the orchestrator performs
one receive (`<-closer`) and only then closes both endpoints. -/
inductive ProxyStep : ProxyState → ProxyState → Prop where
  | signal1 (s : ProxyState) (h : s.sent1 = false)
      (hc : s.buffered < closerCapacity) :
      ProxyStep s { s with sent1 := true, buffered := s.buffered + 1 }
  | signal2 (s : ProxyState) (h : s.sent2 = false)
      (hc : s.buffered < closerCapacity) :
      ProxyStep s { s with sent2 := true, buffered := s.buffered + 1 }
  | recvFirst (s : ProxyState) (h : 0 < s.buffered) (hr : s.received = 0)
      (hc : s.closed = false) :
      ProxyStep s { s with buffered := s.buffered - 1, received := 1 }
  | closeBoth (s : ProxyState) (hr : s.received = 1) (hc : s.closed = false) :
      ProxyStep s { s with closed := true }

/-- The states the proxy teardown can reach from `initProxy`. -/
def ProxyReachable (s : ProxyState) : Prop :=
  Relation.ReflTransGen ProxyStep initProxy s

/-- Channel-accounting invariant of the proxy teardown: buffered plus
received signals equal the signals sent, at most one signal is ever
received, and the endpoints are closed only after that first receive. -/
def proxyInv (s : ProxyState) : Prop :=
  s.buffered + s.received =
    (if s.sent1 then 1 else 0) + (if s.sent2 then 1 else 0) ∧
  s.received ≤ 1 ∧ (s.closed = true → s.received = 1)

theorem getKey_addKey {α : Type} (m : List (String × α)) (k : String) (v : α) :
    getKey (addKey m k v) k = some v := by
  simp [getKey, addKey]

theorem proxyInv_step {s s' : ProxyState} (hs : proxyInv s)
    (h : ProxyStep s s') : proxyInv s' := by
  obtain ⟨hbal, hr, hcl⟩ := hs
  cases h with
  | signal1 h hc =>
    refine ⟨?_, hr, hcl⟩
    show s.buffered + 1 + s.received =
      (if true then 1 else 0) + (if s.sent2 then 1 else 0)
    rw [h] at hbal
    simp only [if_true, Bool.false_eq_true, if_false] at hbal ⊢
    omega
  | signal2 h hc =>
    refine ⟨?_, hr, hcl⟩
    show s.buffered + 1 + s.received =
      (if s.sent1 then 1 else 0) + (if true then 1 else 0)
    rw [h] at hbal
    simp only [if_true, Bool.false_eq_true, if_false] at hbal ⊢
    omega
  | recvFirst h hr2 hc =>
    refine ⟨?_, Nat.le_refl 1, fun _ => rfl⟩
    show s.buffered - 1 + 1 =
      (if s.sent1 then 1 else 0) + (if s.sent2 then 1 else 0)
    omega
  | closeBoth hr2 hc =>
    exact ⟨hbal, hr, fun _ => hr2⟩

theorem proxyInv_reachable {s : ProxyState} (h : ProxyReachable s) :
    proxyInv s := by
  induction h with
  | refl => exact ⟨rfl, by simp [initProxy], by simp [initProxy]⟩
  | tail hab hbc ih => exact proxyInv_step ih hbc

theorem mem_availableNodes (now : Nat) (storage : List (String × HBValue))
    (u : String) :
    u ∈ AvailableNodes now storage ↔
      ∃ v, (u, v) ∈ storage ∧ now < parseHB v + livenessTTL := by
  induction storage with
  | nil => simp [AvailableNodes]
  | cons e rest ih =>
    obtain ⟨a, b⟩ := e
    by_cases h : now < parseHB b + livenessTTL
    · simp only [AvailableNodes, h, if_true, List.mem_cons, ih, Prod.mk.injEq]
      constructor
      · rintro (rfl | ⟨v, hv, hlt⟩)
        · exact ⟨b, Or.inl ⟨rfl, rfl⟩, h⟩
        · exact ⟨v, Or.inr hv, hlt⟩
      · rintro ⟨v, ⟨rfl, rfl⟩ | hv, hlt⟩
        · exact Or.inl rfl
        · exact Or.inr ⟨v, hv, hlt⟩
    · simp only [AvailableNodes, h, if_false, ih, List.mem_cons, Prod.mk.injEq]
      constructor
      · rintro ⟨v, hv, hlt⟩
        exact ⟨v, Or.inr hv, hlt⟩
      · rintro ⟨v, ⟨rfl, rfl⟩ | hv, hlt⟩
        · exact absurd hlt h
        · exact ⟨v, hv, hlt⟩

theorem nodupKeys_val {α : Type} {l : List (String × α)}
    (h : (l.map Prod.fst).Nodup) {u : String} {v w : α}
    (hv : (u, v) ∈ l) (hw : (u, w) ∈ l) : v = w := by
  induction l with
  | nil => cases hv
  | cons e rest ih =>
    obtain ⟨a, b⟩ := e
    simp only [List.map_cons, List.nodup_cons] at h
    rcases List.mem_cons.1 hv with h1 | h1 <;>
      rcases List.mem_cons.1 hw with h2 | h2
    · rw [Prod.mk.injEq] at h1 h2
      rw [h1.2, h2.2]
    · exfalso
      rw [Prod.mk.injEq] at h1
      exact h.1 (List.mem_map.2 ⟨(u, w), h2, by simpa using h1.1⟩)
    · exfalso
      rw [Prod.mk.injEq] at h2
      exact h.1 (List.mem_map.2 ⟨(u, v), h1, by simpa using h2.1⟩)
    · exact ih h.2 h1 h2

/-- Claim C2: an entry of the `healthcheck` bucket with a successfully
parsed timestamp `ts` contributes its key to `AvailableNodes` iff
`now < ts + 15min`; at the boundary `now = ts + 15min` it is excluded. -/
theorem availableNodes_live_iff (now ts : Nat) (u : String)
    (storage : List (String × HBValue))
    (hmem : (u, HBValue.timeVal ts) ∈ storage)
    (hnodup : (storage.map Prod.fst).Nodup) :
    (u ∈ AvailableNodes now storage ↔ now < ts + livenessTTL) ∧
    u ∉ AvailableNodes (ts + livenessTTL) storage := by
  constructor
  · constructor
    · intro hu
      obtain ⟨v, hv, hlt⟩ := (mem_availableNodes now storage u).1 hu
      have hveq : v = HBValue.timeVal ts := nodupKeys_val hnodup hv hmem
      rw [hveq] at hlt
      simpa [parseHB] using hlt
    · intro hlt
      exact (mem_availableNodes now storage u).2
        ⟨HBValue.timeVal ts, hmem, by simpa [parseHB] using hlt⟩
  · intro hu
    obtain ⟨v, hv, hlt⟩ := (mem_availableNodes _ storage u).1 hu
    have hveq : v = HBValue.timeVal ts := nodupKeys_val hnodup hv hmem
    rw [hveq] at hlt
    simp [parseHB] at hlt

theorem availableNodes_live_iff_witness :
    "a" ∈ AvailableNodes 20 [("a", HBValue.timeVal 10)] :=
  ((availableNodes_live_iff 20 10 "a" [("a", HBValue.timeVal 10)]
    (by decide) (by simp)).1).2 (by decide)

/-- Claim C8: a `healthcheck` entry whose value does not decode or whose
string does not parse as RFC3339 is excluded from the live set, and the
remaining entries are still processed and returned; the computation never
fails as a whole. (`livenessTTL ≤ now` says the evaluation instant is at
least one TTL past the Go zero time, which holds for any real clock.) -/
theorem availableNodes_malformed (now : Nat) (u : String)
    (storage : List (String × HBValue)) (h : livenessTTL ≤ now) :
    AvailableNodes now ((u, HBValue.malformed) :: storage) =
      AvailableNodes now storage := by
  have hn : ¬ now < parseHB HBValue.malformed + livenessTTL := by
    simp only [parseHB, livenessTTL] at h ⊢
    omega
  simp [AvailableNodes, hn]

theorem availableNodes_malformed_witness :
    AvailableNodes 20 [("x", HBValue.malformed), ("a", HBValue.timeVal 10)] =
      AvailableNodes 20 [("a", HBValue.timeVal 10)] :=
  availableNodes_malformed 20 "x" [("a", HBValue.timeVal 10)] (by decide)

/-- Claim C1: on an `Alive` tick, `DeleteBucket` is issued only when the
recomputed live-peer set is non-empty, the scrub interval has elapsed since
`lastScrubCheck` (`t + scrubTime ≤ now`), and this node's identity equals
the leader elected from that live set; when the live set is empty the tick
only writes the heartbeat and leaves the scrub timer unchanged. -/
theorem aliveTick_delete_guard (self : String) (scrubTime t now : Nat)
    (storage : List (String × HBValue)) :
    (LedgerOp.deleteBucket ∈ (aliveTick self scrubTime t now storage).2 →
      AvailableNodes now storage ≠ [] ∧ t + scrubTime ≤ now ∧
      Leader (AvailableNodes now storage) = self) ∧
    (AvailableNodes now storage = [] →
      aliveTick self scrubTime t now storage =
        (t, [LedgerOp.addHB self now])) := by
  constructor
  · intro hmem
    by_cases hE : (AvailableNodes now storage).isEmpty
    · simp [aliveTick, hE] at hmem
    · by_cases hT : t + scrubTime ≤ now
      · by_cases hL : Leader (AvailableNodes now storage) = self
        · refine ⟨?_, hT, hL⟩
          intro hnil
          rw [hnil] at hE
          exact hE rfl
        · simp [aliveTick, hE, hT, hL] at hmem
      · simp [aliveTick, hE, hT] at hmem
  · intro hnil
    simp [aliveTick, hnil]

theorem aliveTick_delete_guard_witness :
    0 + 5 ≤ 20 ∧ Leader (AvailableNodes 20 [("a", HBValue.timeVal 10)]) = "a" :=
  ((aliveTick_delete_guard "a" 5 0 20 [("a", HBValue.timeVal 10)]).1
    (by decide)).2

/-- Claim C5: once the scrub interval has elapsed (and the live set is
non-empty), the tick resets `lastScrubCheck` to `now` whether or not this
node is the leader; and any later tick strictly inside the next interval
neither deletes the bucket nor changes the timer, so at most one delete can
be issued per scrub interval on this node's clock. -/
theorem aliveTick_reset_unconditional (self : String) (scrubTime t now : Nat)
    (storage : List (String × HBValue))
    (h1 : AvailableNodes now storage ≠ []) (h2 : t + scrubTime ≤ now) :
    (aliveTick self scrubTime t now storage).1 = now ∧
    ∀ now2 storage2, now2 < now + scrubTime →
      aliveTick self scrubTime now now2 storage2 =
        (now, [LedgerOp.addHB self now2]) := by
  constructor
  · have hE : ¬ (AvailableNodes now storage).isEmpty := by
      intro hE
      rw [List.isEmpty_iff] at hE
      exact h1 hE
    simp [aliveTick, hE, h2]
  · intro now2 storage2 hlt
    have hT : ¬ (now + scrubTime ≤ now2) := by omega
    by_cases hE : (AvailableNodes now2 storage2).isEmpty
    · simp [aliveTick, hE]
    · simp [aliveTick, hE, hT]

theorem aliveTick_reset_unconditional_witness :
    (aliveTick "b" 5 0 20 [("a", HBValue.timeVal 10)]).1 = 20 ∧
    aliveTick "b" 5 20 22 [] = (20, [LedgerOp.addHB "b" 22]) := by
  have h := aliveTick_reset_unconditional "b" 5 0 20
    [("a", HBValue.timeVal 10)] (by decide) (by decide)
  exact ⟨h.1, h.2 22 [] (by decide)⟩

/-- Claim C3: the Publish tick writes iff the `services` entry for
`serviceID` is absent or its recorded owner differs from this node; when
the owner already equals this node, no write happens and the bucket is left
unchanged; and the tick right after a tick on the resulting bucket performs
no write, so two successive evaluations with an unchanged owner perform at
most one write. -/
theorem publishTick_idempotent (self serviceID : String)
    (b : List (String × Service)) :
    ((publishTick self serviceID b).1 = false ↔
      ∃ svc, getKey b serviceID = some svc ∧ svc.PeerID = self) ∧
    ((publishTick self serviceID b).1 = false →
      (publishTick self serviceID b).2 = b) ∧
    (publishTick self serviceID (publishTick self serviceID b).2).1 =
      false := by
  rcases hk : getKey b serviceID with _ | svc
  · refine ⟨by simp [publishTick, hk], by simp [publishTick, hk], ?_⟩
    simp [publishTick, hk, getKey_addKey]
  · by_cases hp : svc.PeerID = self
    · refine ⟨?_, ?_, ?_⟩ <;> simp [publishTick, hk, hp]
    · refine ⟨?_, ?_, ?_⟩ <;> simp [publishTick, hk, hp, getKey_addKey]

theorem publishTick_idempotent_witness :
    (publishTick "a" "web" (publishTick "a" "web" []).2).1 = false :=
  (publishTick_idempotent "a" "web" []).2.2

/-- Claim C6: the Grant tick writes a `users` entry for this node only when
none is found; when an entry exists the tick performs no write and returns
the bucket unchanged, so an existing grant record (with its timestamp) is
never modified or re-timestamped by later Grant ticks. -/
theorem grantTick_once (self nowStr : String) (b : List (String × User)) :
    ((grantTick self nowStr b).1 = true ↔ getKey b self = none) ∧
    (∀ u, getKey b self = some u → grantTick self nowStr b = (false, b)) ∧
    (∀ nowStr2,
      grantTick self nowStr2 (grantTick self nowStr b).2 =
        (false, (grantTick self nowStr b).2)) := by
  rcases hk : getKey b self with _ | u
  · refine ⟨by simp [grantTick, hk], by simp [hk], ?_⟩
    intro nowStr2
    simp [grantTick, hk, getKey_addKey]
  · refine ⟨by simp [grantTick, hk], ?_, ?_⟩
    · intro u2 h2
      simp [grantTick, hk]
    · intro nowStr2
      simp [grantTick, hk]

theorem grantTick_once_witness :
    grantTick "p" "t2" (grantTick "p" "t1" []).2 =
      (false, (grantTick "p" "t1" []).2) :=
  (grantTick_once "p" "t1" []).2.2 "t2"

/-- Claim C4: the Expose-side stream handler resets an inbound stream from a
peer with no `users` entry and returns without attempting the local dial;
the dial is attempted only when the peer's grant entry is found. -/
theorem exposeHandler_admission (users : List (String × User))
    (remotePeer : String) (dialOk : Bool) :
    (getKey users remotePeer = none →
      exposeStreamHandler users remotePeer dialOk = ⟨false, true, false⟩) ∧
    ((exposeStreamHandler users remotePeer dialOk).dialAttempted = true →
      ∃ u, getKey users remotePeer = some u) := by
  rcases hk : getKey users remotePeer with _ | u
  · exact ⟨fun _ => by simp [exposeStreamHandler, hk],
      by simp [exposeStreamHandler, hk]⟩
  · exact ⟨by simp [hk], fun _ => ⟨u, rfl⟩⟩


theorem exposeHandler_admission_witness :
    exposeStreamHandler [] "peerC" true = ⟨false, true, false⟩ :=
  (exposeHandler_admission [] "peerC" true).1 (by decide)

/-- Claim C7: the Connect-side per-connection handler closes the local
connection and returns without a completed peer stream whenever the
`services` lookup finds nothing, the recorded owner fails to decode, or
opening the outbound stream fails; the proxy runs only when all three
succeed. -/
theorem connectHandler_failures (services : List (String × Service))
    (serviceID : String) (decodeOk : String → Bool) (streamOk : Bool) :
    (getKey services serviceID = none →
      connectHandler services serviceID decodeOk streamOk = ⟨true, false⟩) ∧
    (∀ svc, getKey services serviceID = some svc →
      decodeOk svc.PeerID = false →
      connectHandler services serviceID decodeOk streamOk = ⟨true, false⟩) ∧
    (streamOk = false →
      connectHandler services serviceID decodeOk streamOk = ⟨true, false⟩) ∧
    ((connectHandler services serviceID decodeOk streamOk).proxied = true →
      ∃ svc, getKey services serviceID = some svc ∧
        decodeOk svc.PeerID = true ∧ streamOk = true) := by
  rcases hk : getKey services serviceID with _ | svc
  · refine ⟨fun _ => by simp [connectHandler, hk], ?_,
      fun _ => by simp [connectHandler, hk], by simp [connectHandler, hk]⟩
    intro svc2 h2
    simp [hk] at h2
  · by_cases hd : decodeOk svc.PeerID = true
    · refine ⟨by simp [hk], ?_, ?_, ?_⟩
      · intro svc2 h2 hdec
        injection h2 with h2
        rw [← h2] at hdec
        rw [hd] at hdec
        exact Bool.noConfusion hdec
      · intro hstream
        simp [connectHandler, hk, hd, hstream]
      · intro hp
        by_cases hstream : streamOk = true
        · exact ⟨svc, rfl, hd, hstream⟩
        · rw [Bool.not_eq_true] at hstream
          simp [connectHandler, hk, hd, hstream] at hp
    · rw [Bool.not_eq_true] at hd
      refine ⟨by simp [hk], ?_, ?_, ?_⟩
      · intro svc2 h2 hdec
        simp [connectHandler, hk, hd]
      · intro hstream
        simp [connectHandler, hk, hd]
      · intro hp
        simp [connectHandler, hk, hd] at hp

theorem connectHandler_failures_witness :
    connectHandler [] "web" (fun _ => true) true = ⟨true, false⟩ :=
  (connectHandler_failures [] "web" (fun _ => true) true).1 (by decide)

/-- Claim C10: every `ExposeService` call assigns its handler under the one
shared key `ServiceProtocol`, so after two calls only the most recent
handler (with its captured service name and destination) is installed; from
an empty map, two calls leave exactly one handler, the second one. -/
theorem exposeService_shadow (handlers : List (String × InstalledHandler))
    (s1 d1 s2 d2 : String) :
    getKey (exposeInstallHandler (exposeInstallHandler handlers s1 d1) s2 d2)
      ServiceProtocol = some ⟨s2, d2⟩ ∧
    exposeInstallHandler (exposeInstallHandler [] s1 d1) s2 d2 =
      [(ServiceProtocol, ⟨s2, d2⟩)] := by
  refine ⟨getKey_addKey _ _ _, ?_⟩
  simp [exposeInstallHandler, addKey]

/-- Claim C9: in the full-duplex copy protocol, each copy task sends one
completion signal on the capacity-2 `closer` channel; in every reachable
state a task that has not yet signalled finds room in the channel (so
neither send can block), and the endpoints are closed only after the
orchestrator has received exactly the first signal; closing is reachable
after either direction finishes first, without waiting for the second. -/
theorem copyStream_first_signal_teardown :
    (∀ s : ProxyState, ProxyReachable s →
      s.buffered ≤ closerCapacity ∧
      (s.sent1 = false → s.buffered < closerCapacity) ∧
      (s.sent2 = false → s.buffered < closerCapacity) ∧
      (s.closed = true → s.received = 1)) ∧
    ProxyReachable ⟨true, false, 0, 1, true⟩ ∧
    ProxyReachable ⟨false, true, 0, 1, true⟩ := by
  refine ⟨?_, ?_, ?_⟩
  · intro s h
    obtain ⟨hbal, hr, hcl⟩ := proxyInv_reachable h
    have hb1 : (if s.sent1 then 1 else 0) ≤ 1 := by
      cases h1 : s.sent1 <;> simp
    have hb2 : (if s.sent2 then 1 else 0) ≤ 1 := by
      cases h2 : s.sent2 <;> simp
    refine ⟨?_, ?_, ?_, hcl⟩
    · show s.buffered ≤ 2
      omega
    · intro h1
      show s.buffered < 2
      rw [h1] at hbal
      simp only [Bool.false_eq_true, if_false] at hbal
      omega
    · intro h2
      show s.buffered < 2
      rw [h2] at hbal
      simp only [Bool.false_eq_true, if_false] at hbal
      omega
  · have h1 : ProxyStep initProxy ⟨true, false, 1, 0, false⟩ :=
      ProxyStep.signal1 initProxy rfl (by decide)
    have h2 : ProxyStep ⟨true, false, 1, 0, false⟩ ⟨true, false, 0, 1, false⟩ :=
      ProxyStep.recvFirst _ (by decide) rfl rfl
    have h3 : ProxyStep ⟨true, false, 0, 1, false⟩ ⟨true, false, 0, 1, true⟩ :=
      ProxyStep.closeBoth _ rfl rfl
    exact Relation.ReflTransGen.tail (Relation.ReflTransGen.tail
      (Relation.ReflTransGen.single h1) h2) h3
  · have h1 : ProxyStep initProxy ⟨false, true, 1, 0, false⟩ :=
      ProxyStep.signal2 initProxy rfl (by decide)
    have h2 : ProxyStep ⟨false, true, 1, 0, false⟩ ⟨false, true, 0, 1, false⟩ :=
      ProxyStep.recvFirst _ (by decide) rfl rfl
    have h3 : ProxyStep ⟨false, true, 0, 1, false⟩ ⟨false, true, 0, 1, true⟩ :=
      ProxyStep.closeBoth _ rfl rfl
    exact Relation.ReflTransGen.tail (Relation.ReflTransGen.tail
      (Relation.ReflTransGen.single h1) h2) h3

theorem copyStream_first_signal_teardown_witness :
    initProxy.buffered ≤ closerCapacity :=
  (copyStream_first_signal_teardown.1 initProxy Relation.ReflTransGen.refl).1

end EdgeVPN
